import Mathlib

/-!
Verification of the cppsage CLI (src/main.rs) against its specification.

The Rust source is shallowly embedded: text is modelled as `List Char`
(Rust byte indices into the marker-delimited build file become character
indices; all marker and directive text is ASCII, so the index arithmetic
is identical), the filesystem and the results of external subprocesses
are explicit inputs (`Env`, `FS`, `BuildEnv`, `RunEnv`), and each Rust
function becomes a pure Lean function returning an `Outcome` (success,
`std::io::Error`, or panic) together with the updated file state and the
trace of external-process invocations.
-/

set_option maxRecDepth 16384

namespace Cppsage

/-- Result of running an external process to completion: exit-status
success flag plus captured stdout/stderr (`std::process::Output`). -/
structure ProcResult where
  success : Bool
  stdout : List Char
  stderr : List Char
deriving DecidableEq

/-- Kinds of `std::io::ErrorKind` used by the program. -/
inductive IoErrorKind
  | notFound
  | alreadyExists
  | other
deriving DecidableEq

/-- An `std::io::Error`: a kind plus its message text. -/
structure IoError where
  kind : IoErrorKind
  msg : List Char
deriving DecidableEq

/-- Outcome of one of the CLI operations: normal return `Ok(a)`,
return of `Err(e)`, or a Rust panic (e.g. `Option::unwrap` on `None`,
or `String::replace_range` with an inverted range). -/
inductive Outcome (α : Type)
  | ok (a : α)
  | err (e : IoError)
  | panic
deriving DecidableEq

/-- External-process invocations the tool can perform, recorded as a trace. -/
inductive ExtCall
  | conanInstall
  | cmakeConfigure
  | cmakeBuild
  | runBinary
deriving DecidableEq

/-- Rust `str::trim`: drop whitespace from both ends
(`char::is_whitespace`, modelled by `Char.isWhitespace`). -/
def rustTrim (s : List Char) : List Char :=
  ((s.dropWhile Char.isWhitespace).reverse.dropWhile Char.isWhitespace).reverse

/-- Rust `line.starts_with('#')`. -/
def startsWithHash : List Char → Bool
  | [] => false
  | c :: _ => c == '#'

/-- Rust `dep.split('/').next().unwrap()`: the text before the first `/`
(the whole string if there is no `/`; `split` always yields a first
element, so the `unwrap` never panics). -/
def pkgName (dep : List Char) : List Char :=
  dep.takeWhile (fun c => !(c == '/'))

/-- Parsing of `packages/requirements.txt` (main.rs lines 162-167): each
element of `ls` is one `BufRead::lines` item (`Err` for a line the reader
failed to produce); `filter_map(Result::ok)` keeps the successful ones,
each line is trimmed, and blank lines and `#`-prefixed lines are dropped. -/
def parseDeps (ls : List (Except Unit (List Char))) : List (List Char) :=
  (((ls.filterMap Except.toOption).map rustTrim).filter
    fun line => !line.isEmpty && !startsWithHash line)

/-- Contents written to the transient `conanfile.txt` (main.rs lines 178-185). -/
def conanfileContent (deps : List (List Char)) : List Char :=
  "[requires]\n".toList
    ++ (deps.map (fun d => d ++ ['\n'])).flatten
    ++ "\n[generators]\nCMakeDeps\nCMakeToolchain\n".toList

/-- The start marker of the tool-owned region of CMakeLists.txt. -/
def startMarker : List Char := "# cppsage:dependencies_start".toList

/-- The end marker of the tool-owned region of CMakeLists.txt. -/
def endMarker : List Char := "# cppsage:dependencies_end".toList

/-- The two directives emitted per dependency declaration
(main.rs lines 213-215). -/
def depDirectives (owner dep : List Char) : List Char :=
  "find_package(".toList ++ pkgName dep ++ ")\n".toList
    ++ "target_link_libraries(".toList ++ owner ++ " PRIVATE ".toList
    ++ pkgName dep ++ "::".toList ++ pkgName dep ++ ")\n".toList

/-- The whole `new_deps` block (main.rs lines 211-216): the directives of
each declaration, concatenated in order. -/
def mkDepsBlock (owner : List Char) : List (List Char) → List Char
  | [] => []
  | d :: ds => depDirectives owner d ++ mkDepsBlock owner ds

/-- Rust `str::find`: index of the first occurrence of `pat` in the
haystack, `none` if there is none. -/
def strFind (pat : List Char) : List Char → Option Nat
  | [] => if pat.isPrefixOf ([] : List Char) then some 0 else none
  | c :: t =>
    if pat.isPrefixOf (c :: t) then some 0
    else (strFind pat t).map (· + 1)

/-- Result of the marker-patching step (main.rs lines 218-228): the new
file contents, the "markers not found" error, or a panic
(`String::replace_range` panics when the range start exceeds its end,
which happens when both markers are present but the end marker's first
occurrence starts before the end of the start marker's). -/
inductive PatchResult
  | ok (content : List Char)
  | markerErr
  | panicked
deriving DecidableEq

/-- The Build-File Patcher (main.rs lines 211-228): locate both markers,
then replace the range from just after the start marker to the start of
the end marker with `"\n" ++ block ++ "\n"`. -/
def patchDeps (content : List Char) (deps : List (List Char))
    (owner : List Char) : PatchResult :=
  let block := mkDepsBlock owner deps
  match strFind startMarker content, strFind endMarker content with
  | some s, some e =>
    if s + startMarker.length ≤ e then
      PatchResult.ok (content.take (s + startMarker.length)
        ++ ('\n' :: (block ++ ['\n'])) ++ content.drop e)
    else PatchResult.panicked
  | some _, none => PatchResult.markerErr
  | none, _ => PatchResult.markerErr

/-- Error message when `packages/requirements.txt` is missing (main.rs line 158). -/
def reqNotFoundMsg : List Char :=
  "packages/requirements.txt not found. Are you in the project root?".toList

/-- Error message when `conan install` exits non-zero (main.rs line 199). -/
def conanFailMsg (stderr : List Char) : List Char :=
  "Conan install failed:\n".toList ++ stderr

/-- Error message when the CMakeLists markers are missing (main.rs line 227). -/
def markerNotFoundMsg : List Char :=
  "Could not find dependency markers in CMakeLists.txt".toList

/-- OS-supplied message of the NotFound error that
`fs::read_to_string` returns on a missing file (main.rs line 209). -/
def osFileNotFoundMsg : List Char :=
  "No such file or directory (os error 2)".toList

/-- Exogenous inputs of one `install` invocation: the line-read results
of `packages/requirements.txt` (`none` = file absent), the result of the
`conan install` subprocess (`Except.error` = the process failed to
launch), and the final component of the current directory
(`none` = the directory has no file name). -/
structure Env where
  reqLines : Option (List (Except Unit (List Char)))
  conanResult : Except IoError ProcResult
  cwdName : Option (List Char)

/-- The two files `install` mutates: the transient `conanfile.txt` and
the project's `CMakeLists.txt` (`none` = absent). -/
structure FS where
  conanfile : Option (List Char)
  cmakeFile : Option (List Char)
deriving DecidableEq

/-- The `install_dependencies` function (main.rs lines 152-231), step by
step: parse requirements (NotFound if absent); succeed immediately if no
declarations; write `conanfile.txt`; run `conan install` (a launch
failure propagates via `?` before the manifest is deleted); delete
`conanfile.txt`; surface a non-zero conan exit; derive the project name
from the current directory (`unwrap` panics when it has none); read the
project's CMakeLists.txt; patch the marker-delimited region and write it
back, reporting the marker error, or panicking, as `patchDeps` says. -/
def installDependencies (env : Env) (fs : FS) :
    Outcome Unit × FS × List ExtCall :=
  match env.reqLines with
  | none => (Outcome.err ⟨IoErrorKind.notFound, reqNotFoundMsg⟩, fs, [])
  | some ls =>
    let deps := parseDeps ls
    if deps.isEmpty then (Outcome.ok (), fs, [])
    else
      let fs1 : FS := { fs with conanfile := some (conanfileContent deps) }
      match env.conanResult with
      | Except.error e => (Outcome.err e, fs1, [ExtCall.conanInstall])
      | Except.ok r =>
        let fs2 : FS := { fs1 with conanfile := none }
        if !r.success then
          (Outcome.err ⟨IoErrorKind.other, conanFailMsg r.stderr⟩, fs2,
            [ExtCall.conanInstall])
        else
          match env.cwdName with
          | none => (Outcome.panic, fs2, [ExtCall.conanInstall])
          | some projectName =>
            match fs.cmakeFile with
            | none =>
              (Outcome.err ⟨IoErrorKind.notFound, osFileNotFoundMsg⟩, fs2,
                [ExtCall.conanInstall])
            | some content =>
              match patchDeps content deps projectName with
              | PatchResult.ok newContent =>
                (Outcome.ok (), { fs2 with cmakeFile := some newContent },
                  [ExtCall.conanInstall])
              | PatchResult.markerErr =>
                (Outcome.err ⟨IoErrorKind.other, markerNotFoundMsg⟩, fs2,
                  [ExtCall.conanInstall])
              | PatchResult.panicked =>
                (Outcome.panic, fs2, [ExtCall.conanInstall])

/-- Error message of a failed CMake configure step (main.rs line 95). -/
def configureFailMsg (stderr : List Char) : List Char :=
  "CMake configuration failed:\n".toList ++ stderr

/-- Error message of a failed CMake build step (main.rs line 109). -/
def buildFailMsg (stderr : List Char) : List Char :=
  "CMake build failed:\n".toList ++ stderr

/-- Exogenous inputs of one `compile` invocation: the result of
`fs::create_dir_all("build")` and the results of the two cmake
subprocesses (`Except.error` = failed to launch). -/
structure BuildEnv where
  mkdirResult : Except IoError Unit
  configureResult : Except IoError ProcResult
  buildResult : Except IoError ProcResult

/-- The `compile_project` function (main.rs lines 75-117): create the
build directory, run the configure step (failing with the
configuration-failed error on non-zero exit, before the build step is
ever invoked), then run the build step (failing likewise). -/
def compileProject (env : BuildEnv) : Outcome Unit × List ExtCall :=
  match env.mkdirResult with
  | Except.error e => (Outcome.err e, [])
  | Except.ok _ =>
    match env.configureResult with
    | Except.error e => (Outcome.err e, [ExtCall.cmakeConfigure])
    | Except.ok conf =>
      if !conf.success then
        (Outcome.err ⟨IoErrorKind.other, configureFailMsg conf.stderr⟩,
          [ExtCall.cmakeConfigure])
      else
        match env.buildResult with
        | Except.error e =>
          (Outcome.err e, [ExtCall.cmakeConfigure, ExtCall.cmakeBuild])
        | Except.ok b =>
          if !b.success then
            (Outcome.err ⟨IoErrorKind.other, buildFailMsg b.stderr⟩,
              [ExtCall.cmakeConfigure, ExtCall.cmakeBuild])
          else (Outcome.ok (), [ExtCall.cmakeConfigure, ExtCall.cmakeBuild])

/-- Path separator used by Rust `Path::join` on the running platform. -/
def pathSep (isWindows : Bool) : Char := if isWindows then '\\' else '/'

/-- The computed binary path (main.rs lines 127-131):
`build/<name>/<name>` with `.exe` appended on Windows only. -/
def exePath (isWindows : Bool) (name : List Char) : List Char :=
  "build".toList ++ [pathSep isWindows] ++ name ++ [pathSep isWindows]
    ++ name ++ (if isWindows then ".exe".toList else [])

/-- Rust `Debug` escaping of a path string (backslashes and quotes). -/
def debugEscape (p : List Char) : List Char :=
  p.flatMap fun c => if c == '\\' || c == '"' then ['\\', c] else [c]

/-- Error message when the binary is missing (main.rs line 134):
`format!("Executable not found at: {:?}", exe_path)` — the `Debug`
formatting wraps the path in quotes. -/
def exeNotFoundMsg (p : List Char) : List Char :=
  "Executable not found at: ".toList ++ ['"'] ++ debugEscape p ++ ['"']

/-- Error message when the produced binary exits non-zero (main.rs line 145). -/
def execFailMsg : List Char := "Project execution failed.".toList

/-- Exogenous inputs of one `run` invocation: the compile inputs, the
current directory's final component, the platform, which paths exist on
disk, and the result of executing the binary. -/
structure RunEnv where
  build : BuildEnv
  cwdName : Option (List Char)
  isWindows : Bool
  fileExists : List Char → Bool
  execResult : Except IoError ProcResult

/-- The `run_project` function (main.rs lines 119-149): compile first
(propagating failure), derive the project name from the current
directory (`unwrap` panics when it has none), compute the binary path,
fail with the NotFound error naming that path when no file exists there
(without executing anything), otherwise execute the binary and report
its non-zero exit as an error after relaying its output. -/
def runProject (env : RunEnv) : Outcome Unit × List ExtCall :=
  match compileProject env.build with
  | (Outcome.ok _, calls) =>
    match env.cwdName with
    | none => (Outcome.panic, calls)
    | some name =>
      let p := exePath env.isWindows name
      if !env.fileExists p then
        (Outcome.err ⟨IoErrorKind.notFound, exeNotFoundMsg p⟩, calls)
      else
        match env.execResult with
        | Except.error e => (Outcome.err e, calls ++ [ExtCall.runBinary])
        | Except.ok r =>
          if !r.success then
            (Outcome.err ⟨IoErrorKind.other, execFailMsg⟩,
              calls ++ [ExtCall.runBinary])
          else (Outcome.ok (), calls ++ [ExtCall.runBinary])
  | (Outcome.err e, calls) => (Outcome.err e, calls)
  | (Outcome.panic, calls) => (Outcome.panic, calls)

/-! Helper lemmas about `dropWhile`, `rustTrim` and `strFind`. -/

theorem dropWhile_dropWhile {α : Type} (p : α → Bool) (l : List α) :
    (l.dropWhile p).dropWhile p = l.dropWhile p := by
  induction l with
  | nil => rfl
  | cons c t ih =>
    by_cases h : p c
    · simp [List.dropWhile_cons, h, ih]
    · simp [List.dropWhile_cons, h]

theorem dropWhile_eq_self_of_prefix {α : Type} {p : α → Bool} {t l : List α}
    (hpre : t <+: l) (hl : l.dropWhile p = l) : t.dropWhile p = t := by
  cases t with
  | nil => rfl
  | cons a t2 =>
    obtain ⟨r, hr⟩ := hpre
    cases l with
    | nil => simp at hr
    | cons b l2 =>
      have hab : a = b := by
        have := congrArg List.head? hr
        simpa using this
      subst hab
      by_cases h : p a
      · rw [List.dropWhile_cons_of_pos h] at hl
        have h1 : (l2.dropWhile p).length ≤ l2.length :=
          (List.dropWhile_suffix p).sublist.length_le
        have h2 := congrArg List.length hl
        simp at h2
        omega
      · rw [List.dropWhile_cons_of_neg h]

theorem rustTrim_idem (s : List Char) : rustTrim (rustTrim s) = rustTrim s := by
  unfold rustTrim
  have hu : (s.dropWhile Char.isWhitespace).dropWhile Char.isWhitespace
      = s.dropWhile Char.isWhitespace := dropWhile_dropWhile _ _
  have hpre : ((s.dropWhile Char.isWhitespace).reverse.dropWhile
        Char.isWhitespace).reverse <+: s.dropWhile Char.isWhitespace := by
    rw [← List.reverse_suffix]
    simp only [List.reverse_reverse]
    exact List.dropWhile_suffix _
  have ht := dropWhile_eq_self_of_prefix hpre hu
  rw [ht, List.reverse_reverse, dropWhile_dropWhile]

theorem strFind_eq_some_iff {pat s : List Char} {i : Nat} :
    strFind pat s = some i ↔
      (pat <+: s.drop i ∧ ∀ j, j < i → ¬ pat <+: s.drop j) := by
  induction s generalizing i with
  | nil =>
    by_cases hp : pat <+: ([] : List Char)
    · have hb : pat.isPrefixOf ([] : List Char) = true :=
        List.isPrefixOf_iff_prefix.mpr hp
      simp only [strFind, hb, if_true, List.drop_nil]
      constructor
      · rintro h
        have : i = 0 := by injection h with h2; omega
        subst this
        exact ⟨hp, fun j hj => absurd hj (by omega)⟩
      · rintro ⟨h1, h2⟩
        cases i with
        | zero => rfl
        | succ n => exact absurd (h2 0 (by omega)) (not_not.mpr hp)
    · have hb : pat.isPrefixOf ([] : List Char) = false := by
        cases h : pat.isPrefixOf ([] : List Char)
        · rfl
        · exact absurd (List.isPrefixOf_iff_prefix.mp h) hp
      simp only [strFind, hb, List.drop_nil]
      constructor
      · rintro h; cases h
      · rintro ⟨h1, _⟩; exact absurd h1 hp
  | cons c t ih =>
    by_cases hp : pat <+: (c :: t)
    · have hb : pat.isPrefixOf (c :: t) = true := List.isPrefixOf_iff_prefix.mpr hp
      simp only [strFind, hb, if_true]
      constructor
      · rintro h
        have : i = 0 := by injection h with h2; omega
        subst this
        exact ⟨by simpa using hp, fun j hj => absurd hj (by omega)⟩
      · rintro ⟨h1, h2⟩
        cases i with
        | zero => rfl
        | succ n => exact absurd (h2 0 (by omega)) (not_not.mpr hp)
    · have hb : pat.isPrefixOf (c :: t) = false := by
        cases h : pat.isPrefixOf (c :: t)
        · rfl
        · exact absurd (List.isPrefixOf_iff_prefix.mp h) hp
      simp only [strFind, hb, if_false]
      cases i with
      | zero =>
        simp only [List.drop_zero]
        constructor
        · rintro h
          rcases Option.map_eq_some'.mp h with ⟨a, _, ha⟩
          omega
        · rintro ⟨h1, _⟩; exact absurd h1 hp
      | succ n =>
        rw [show (c :: t).drop (n + 1) = t.drop n from rfl]
        constructor
        · rintro h
          rcases Option.map_eq_some'.mp h with ⟨a, ha, han⟩
          have han2 : a = n := by omega
          subst han2
          rcases ih.mp ha with ⟨h1, h2⟩
          refine ⟨h1, fun j hj => ?_⟩
          cases j with
          | zero => simpa using hp
          | succ m =>
            rw [show (c :: t).drop (m + 1) = t.drop m from rfl]
            exact h2 m (by omega)
        · rintro ⟨h1, h2⟩
          have hsub : strFind pat t = some n := by
            refine ih.mpr ⟨h1, fun j hj => ?_⟩
            have := h2 (j + 1) (by omega)
            rwa [show (c :: t).drop (j + 1) = t.drop j from rfl] at this
          rw [hsub]; rfl

theorem strFind_prefix {pat s : List Char} {i : Nat}
    (h : strFind pat s = some i) : pat <+: s.drop i :=
  (strFind_eq_some_iff.mp h).1

theorem strFind_min {pat s : List Char} {i : Nat}
    (h : strFind pat s = some i) : ∀ j, j < i → ¬ pat <+: s.drop j :=
  (strFind_eq_some_iff.mp h).2

theorem occ_bound {pat s : List Char} {i : Nat} (hne : pat ≠ [])
    (h : pat <+: s.drop i) : i + pat.length ≤ s.length := by
  have h1 := h.length_le
  rw [List.length_drop] at h1
  have h2 : 0 < pat.length := List.length_pos.mpr hne
  omega

theorem prefix_append_drop_of_le {pat A X : List Char} {j : Nat}
    (h : pat <+: (A ++ X).drop j) (hj : j + pat.length ≤ A.length) :
    pat <+: A.drop j := by
  rw [List.drop_append_eq_append_drop] at h
  have hj0 : j - A.length = 0 := by omega
  rw [hj0, List.drop_zero] at h
  have heq := List.prefix_iff_eq_take.mp h
  rw [List.take_append_of_le_length (by rw [List.length_drop]; omega)] at heq
  exact List.prefix_iff_eq_take.mpr heq

theorem prefix_take_drop {pat : List Char} {l : List Char} {n j : Nat}
    (h : pat <+: (l.take n).drop j) : pat <+: l.drop j := by
  rw [List.drop_take] at h
  exact h.trans (List.take_prefix _ _)

theorem prefix_getElem? {pat l : List Char} {k : Nat}
    (h : pat <+: l) (hk : k < pat.length) : l[k]? = pat[k]? := by
  obtain ⟨r, hr⟩ := h
  rw [← hr, List.getElem?_append_left hk]

theorem not_infix_of_mem_not_mem {c : Char} {pat l : List Char}
    (hc : c ∈ pat) (hl : c ∉ l) : ¬ pat <:+: l :=
  fun hinf => hl (hinf.sublist.subset hc)

theorem pkgName_before_slash {name ver : List Char} (h : '/' ∉ name) :
    pkgName (name ++ '/' :: ver) = name := by
  unfold pkgName
  induction name with
  | nil => simp [List.takeWhile_cons]
  | cons a t ih =>
    have ha : (a == '/') = false := by
      rw [beq_eq_false_iff_ne]
      intro he
      exact h (he ▸ List.mem_cons_self a t)
    rw [List.cons_append, List.takeWhile_cons, ha]
    simp only [Bool.not_false, if_true]
    rw [ih (fun hm => h (List.mem_cons_of_mem a hm))]

theorem compile_no_runBinary (env : BuildEnv) :
    ExtCall.runBinary ∉ (compileProject env).2 := by
  cases hm : env.mkdirResult with
  | error e => simp [compileProject, hm]
  | ok u =>
    cases hc : env.configureResult with
    | error e => simp [compileProject, hm, hc]
    | ok conf =>
      cases hs : conf.success with
      | false => simp [compileProject, hm, hc, hs]
      | true =>
        cases hb : env.buildResult with
        | error e => simp [compileProject, hm, hc, hs, hb]
        | ok b =>
          cases hbs : b.success <;> simp [compileProject, hm, hc, hs, hb, hbs]

/-- Lines of the requirements file minus those the reader failed to produce. -/
def dropFailedLines (ls : List (Except Unit (List Char))) :
    List (Except Unit (List Char)) :=
  ls.filter fun r => match r with
    | Except.ok _ => true
    | Except.error _ => false

theorem filterMap_dropFailedLines (ls : List (Except Unit (List Char))) :
    (dropFailedLines ls).filterMap Except.toOption
      = ls.filterMap Except.toOption := by
  induction ls with
  | nil => rfl
  | cons r t ih =>
    cases r with
    | ok l =>
      simp only [dropFailedLines, List.filter_cons, List.filterMap_cons] at ih ⊢
      simp [Except.toOption, ih]
    | error e =>
      simp only [dropFailedLines, List.filter_cons, List.filterMap_cons] at ih ⊢
      simp [Except.toOption, ih]

/-! The claim theorems. -/

/-- C4: the parsed declaration list excludes blank lines and lines whose
first non-whitespace character is `#`, strips surrounding whitespace
from each remaining line, preserves the order of the lines as read, and
`install` fails with a NotFound error when the requirements file is
absent. -/
theorem parse_requirements_spec :
    (∀ (env : Env) (fs : FS), env.reqLines = none →
      (installDependencies env fs).1
        = Outcome.err ⟨IoErrorKind.notFound, reqNotFoundMsg⟩)
    ∧ (∀ ls d, d ∈ parseDeps ls →
        rustTrim d = d ∧ d ≠ [] ∧ startsWithHash d = false)
    ∧ (∀ ls, List.Sublist (parseDeps ls)
        ((ls.filterMap Except.toOption).map rustTrim))
    ∧ (∀ ls l, Except.ok l ∈ ls → rustTrim l ≠ [] →
        startsWithHash (rustTrim l) = false → rustTrim l ∈ parseDeps ls) := by
  refine ⟨?_, ?_, ?_, ?_⟩
  · intro env fs h
    simp [installDependencies, h]
  · intro ls d hd
    unfold parseDeps at hd
    rw [List.mem_filter] at hd
    obtain ⟨hmem, hcond⟩ := hd
    rcases List.mem_map.mp hmem with ⟨x, _, hdx⟩
    rw [Bool.and_eq_true, Bool.not_eq_true', Bool.not_eq_true'] at hcond
    refine ⟨hdx ▸ rustTrim_idem x, ?_, hcond.2⟩
    intro hnil
    rw [hnil] at hcond
    simp at hcond
  · intro ls
    exact List.filter_sublist _
  · intro ls l hmem h1 h2
    unfold parseDeps
    rw [List.mem_filter]
    refine ⟨List.mem_map_of_mem _ (List.mem_filterMap.mpr ⟨Except.ok l, hmem, rfl⟩), ?_⟩
    rw [Bool.and_eq_true, Bool.not_eq_true', Bool.not_eq_true']
    exact ⟨by simpa [List.isEmpty_iff] using h1, h2⟩

/-- C4 witness: the theorem applied at concrete inputs. -/
theorem parse_requirements_spec_witness :
    (installDependencies ⟨none, Except.ok ⟨true, [], []⟩, none⟩
        ⟨none, none⟩).1
      = Outcome.err ⟨IoErrorKind.notFound, reqNotFoundMsg⟩
    ∧ (rustTrim "fmt/10.2.1".toList = "fmt/10.2.1".toList
        ∧ "fmt/10.2.1".toList ≠ [] ∧ startsWithHash "fmt/10.2.1".toList = false)
    ∧ List.Sublist (parseDeps [Except.ok " fmt/10.2.1 ".toList])
        ((([Except.ok " fmt/10.2.1 ".toList]
            : List (Except Unit (List Char))).filterMap Except.toOption).map rustTrim)
    ∧ rustTrim " fmt/10.2.1 ".toList ∈ parseDeps [Except.ok " fmt/10.2.1 ".toList] :=
  ⟨parse_requirements_spec.1 _ _ rfl,
   parse_requirements_spec.2.1 [Except.ok "fmt/10.2.1".toList] _ (by decide),
   parse_requirements_spec.2.2.1 _,
   parse_requirements_spec.2.2.2 _ _ (List.mem_singleton.mpr rfl)
     (by decide) (by decide)⟩

/-- C7: with an empty parsed declaration list, `install` returns success
without invoking the package manager and without touching any file. -/
theorem install_empty_deps_noop (env : Env) (fs : FS)
    (ls : List (Except Unit (List Char)))
    (h : env.reqLines = some ls) (he : parseDeps ls = []) :
    installDependencies env fs = (Outcome.ok (), fs, []) := by
  simp [installDependencies, h, he]

/-- C7 witness: the theorem applied at a concrete comment-only requirements file. -/
theorem install_empty_deps_noop_witness :
    installDependencies
        ⟨some [Except.ok "# comment".toList, Except.ok "".toList],
         Except.ok ⟨true, [], []⟩, some "app".toList⟩
        ⟨none, some "x".toList⟩
      = (Outcome.ok (), ⟨none, some "x".toList⟩, []) :=
  install_empty_deps_noop _ _ _ rfl (by decide)

/-- C1: whenever the declaration list is non-empty and the package
manager was actually invoked (launched and ran to completion,
succeeding or failing), the transient `conanfile.txt` no longer exists
when `install` returns, and the package manager's non-zero exit is
surfaced as the conan-failed error only on a state where the manifest
is already deleted. -/
theorem install_manifest_cleanup (env : Env) (fs : FS)
    (ls : List (Except Unit (List Char))) (r : ProcResult)
    (hreq : env.reqLines = some ls) (hne : parseDeps ls ≠ [])
    (hconan : env.conanResult = Except.ok r) :
    (installDependencies env fs).2.1.conanfile = none
    ∧ (r.success = false →
        (installDependencies env fs).1
          = Outcome.err ⟨IoErrorKind.other, conanFailMsg r.stderr⟩) := by
  have hne2 : (parseDeps ls).isEmpty = false := by
    cases h : parseDeps ls
    · exact absurd h hne
    · rfl
  cases hs : r.success with
  | false =>
    constructor <;> simp [installDependencies, hreq, hconan, hne2, hs]
  | true =>
    refine ⟨?_, fun hf => Bool.noConfusion hf⟩
    cases hcwd : env.cwdName with
    | none => simp [installDependencies, hreq, hconan, hne2, hs, hcwd]
    | some pn =>
      cases hcm : fs.cmakeFile with
      | none => simp [installDependencies, hreq, hconan, hne2, hs, hcwd, hcm]
      | some content =>
        cases hp : patchDeps content (parseDeps ls) pn <;>
          simp [installDependencies, hreq, hconan, hne2, hs, hcwd, hcm, hp]

/-- C1 witness: the theorem applied at a concrete failing conan run. -/
theorem install_manifest_cleanup_witness :
    (installDependencies
        ⟨some [Except.ok "fmt/10.2.1".toList],
         Except.ok ⟨false, [], "boom".toList⟩, some "app".toList⟩
        ⟨none, none⟩).2.1.conanfile = none
    ∧ (installDependencies
        ⟨some [Except.ok "fmt/10.2.1".toList],
         Except.ok ⟨false, [], "boom".toList⟩, some "app".toList⟩
        ⟨none, none⟩).1
      = Outcome.err ⟨IoErrorKind.other, conanFailMsg "boom".toList⟩ := by
  have h := install_manifest_cleanup
    ⟨some [Except.ok "fmt/10.2.1".toList],
     Except.ok ⟨false, [], "boom".toList⟩, some "app".toList⟩
    ⟨none, none⟩ [Except.ok "fmt/10.2.1".toList]
    ⟨false, [], "boom".toList⟩ rfl (by decide) rfl
  exact ⟨h.1, h.2 rfl⟩

/-- C5: when the configure step exits non-zero, `compile` fails with
the configuration-failed error carrying the captured standard-error
text, and the build step is never invoked. -/
theorem compile_configure_failure_short_circuits (env : BuildEnv)
    (conf : ProcResult)
    (hmk : env.mkdirResult = Except.ok ())
    (hc : env.configureResult = Except.ok conf)
    (hf : conf.success = false) :
    compileProject env
      = (Outcome.err ⟨IoErrorKind.other, configureFailMsg conf.stderr⟩,
          [ExtCall.cmakeConfigure])
    ∧ ExtCall.cmakeBuild ∉ (compileProject env).2
    ∧ conf.stderr <:+ configureFailMsg conf.stderr := by
  have h1 : compileProject env
      = (Outcome.err ⟨IoErrorKind.other, configureFailMsg conf.stderr⟩,
          [ExtCall.cmakeConfigure]) := by
    simp [compileProject, hmk, hc, hf]
  refine ⟨h1, ?_, List.suffix_append _ _⟩
  rw [h1]
  simp

/-- C5 witness: the theorem applied at a concrete failing configure step. -/
theorem compile_configure_failure_short_circuits_witness :
    compileProject ⟨Except.ok (), Except.ok ⟨false, [], "cfg".toList⟩,
        Except.ok ⟨true, [], []⟩⟩
      = (Outcome.err ⟨IoErrorKind.other, configureFailMsg "cfg".toList⟩,
          [ExtCall.cmakeConfigure])
    ∧ ExtCall.cmakeBuild
        ∉ (compileProject ⟨Except.ok (), Except.ok ⟨false, [], "cfg".toList⟩,
            Except.ok ⟨true, [], []⟩⟩).2
    ∧ "cfg".toList <:+ configureFailMsg "cfg".toList :=
  compile_configure_failure_short_circuits
    ⟨Except.ok (), Except.ok ⟨false, [], "cfg".toList⟩,
      Except.ok ⟨true, [], []⟩⟩
    ⟨false, [], "cfg".toList⟩ rfl rfl rfl

/-- C6: when compile succeeds but no file exists at the computed binary
path, `run` fails with the NotFound error naming that exact path and
never executes the binary. -/
theorem run_missing_binary_reports_not_found (env : RunEnv)
    (name : List Char) (calls : List ExtCall)
    (hc : compileProject env.build = (Outcome.ok (), calls))
    (hn : env.cwdName = some name)
    (hex : env.fileExists (exePath env.isWindows name) = false) :
    runProject env
      = (Outcome.err ⟨IoErrorKind.notFound,
          exeNotFoundMsg (exePath env.isWindows name)⟩, calls)
    ∧ ExtCall.runBinary ∉ (runProject env).2 := by
  have h1 : runProject env
      = (Outcome.err ⟨IoErrorKind.notFound,
          exeNotFoundMsg (exePath env.isWindows name)⟩, calls) := by
    unfold runProject
    rw [hc]
    simp [hn, hex]
  refine ⟨h1, ?_⟩
  rw [h1]
  have h2 := compile_no_runBinary env.build
  rw [hc] at h2
  exact h2

/-- C6 witness: the theorem applied at a concrete environment with no
file on disk. -/
theorem run_missing_binary_reports_not_found_witness :
    runProject ⟨⟨Except.ok (), Except.ok ⟨true, [], []⟩,
          Except.ok ⟨true, [], []⟩⟩, some "app".toList, false,
          fun _ => false, Except.ok ⟨true, [], []⟩⟩
      = (Outcome.err ⟨IoErrorKind.notFound,
          exeNotFoundMsg (exePath false "app".toList)⟩,
          [ExtCall.cmakeConfigure, ExtCall.cmakeBuild])
    ∧ ExtCall.runBinary
        ∉ (runProject ⟨⟨Except.ok (), Except.ok ⟨true, [], []⟩,
            Except.ok ⟨true, [], []⟩⟩, some "app".toList, false,
            fun _ => false, Except.ok ⟨true, [], []⟩⟩).2 :=
  run_missing_binary_reports_not_found _ "app".toList
    [ExtCall.cmakeConfigure, ExtCall.cmakeBuild] rfl rfl rfl

/-- C9: both `run` and `install` derive the project name by unwrapping
the final component of the current directory, and when that component
is absent (e.g. at the filesystem root) they panic instead of returning
an error — for `install` once the package-manager invocation has
succeeded, for `run` once compilation has succeeded. -/
theorem cwd_unwrap_panics :
    (∀ (env : Env) (fs : FS) (ls : List (Except Unit (List Char)))
        (r : ProcResult),
      env.reqLines = some ls → parseDeps ls ≠ [] →
      env.conanResult = Except.ok r → r.success = true →
      env.cwdName = none →
      (installDependencies env fs).1 = Outcome.panic)
    ∧ (∀ env : RunEnv, (compileProject env.build).1 = Outcome.ok () →
        env.cwdName = none → (runProject env).1 = Outcome.panic) := by
  constructor
  · intro env fs ls r hreq hne hconan hs hcwd
    have hne2 : (parseDeps ls).isEmpty = false := by
      cases h : parseDeps ls
      · exact absurd h hne
      · rfl
    simp [installDependencies, hreq, hconan, hne2, hs, hcwd]
  · intro env hc hcwd
    rcases hcp : compileProject env.build with ⟨o, calls⟩
    rw [hcp] at hc
    simp only at hc
    subst hc
    simp [runProject, hcp, hcwd]

/-- C9 witness: the theorem applied at concrete environments whose
current directory has no final component. -/
theorem cwd_unwrap_panics_witness :
    (installDependencies
        ⟨some [Except.ok "fmt/10.2.1".toList],
         Except.ok ⟨true, [], []⟩, none⟩ ⟨none, none⟩).1 = Outcome.panic
    ∧ (runProject ⟨⟨Except.ok (), Except.ok ⟨true, [], []⟩,
          Except.ok ⟨true, [], []⟩⟩, none, false,
          fun _ => true, Except.ok ⟨true, [], []⟩⟩).1 = Outcome.panic :=
  ⟨cwd_unwrap_panics.1 _ _ [Except.ok "fmt/10.2.1".toList] ⟨true, [], []⟩
      rfl (by decide) rfl rfl rfl,
   cwd_unwrap_panics.2 _ rfl rfl⟩

/-- C10: a requirements line the reader fails to produce is silently
dropped: the whole observable behaviour of `install` (outcome, file
state and subprocess trace) is the same as if the failed lines were
removed from the file, so an unreadable line never causes `install` to
fail, and it still reports success with the shorter declaration list. -/
theorem install_drops_unreadable_lines (env : Env) (fs : FS)
    (ls : List (Except Unit (List Char))) :
    installDependencies { env with reqLines := some ls } fs
      = installDependencies { env with reqLines := some (dropFailedLines ls) } fs := by
  have hp : parseDeps (dropFailedLines ls) = parseDeps ls := by
    unfold parseDeps
    rw [filterMap_dropFailedLines]
  simp only [installDependencies, hp]

/-- C8: per declaration the patcher emits exactly two directives — the
package lookup and the link directive — deriving the package name as
the text before the first `/`; the `fmt/10.2.1` scenario yields
`find_package(fmt)` and a link directive referencing `fmt::fmt`. -/
theorem patch_block_directives :
    (∀ (owner d : List Char) (ds : List (List Char)),
      mkDepsBlock owner (d :: ds)
        = ("find_package(".toList ++ pkgName d ++ ")\n".toList
            ++ "target_link_libraries(".toList ++ owner ++ " PRIVATE ".toList
            ++ pkgName d ++ "::".toList ++ pkgName d ++ ")\n".toList)
          ++ mkDepsBlock owner ds)
    ∧ (∀ (name ver : List Char), '/' ∉ name →
        pkgName (name ++ '/' :: ver) = name)
    ∧ parseDeps [Except.ok "fmt/10.2.1".toList, Except.ok "".toList,
        Except.ok "# comment".toList] = ["fmt/10.2.1".toList]
    ∧ mkDepsBlock "app".toList ["fmt/10.2.1".toList]
        = "find_package(fmt)\ntarget_link_libraries(app PRIVATE fmt::fmt)\n".toList := by
  refine ⟨fun owner d ds => ?_, fun name ver h => pkgName_before_slash h,
    by decide, by decide⟩
  simp [mkDepsBlock, depDirectives]

/-- C8 witness: the package-name derivation applied at `fmt/10.2.1`. -/
theorem patch_block_directives_witness :
    pkgName ("fmt".toList ++ '/' :: "10.2.1".toList) = "fmt".toList :=
  patch_block_directives.2.1 "fmt".toList "10.2.1".toList (by decide)

/-- C2 counterexample: a build file containing both markers, but with
the end marker's first occurrence before the start marker's; the claim
says the patcher rejects this with a MarkerNotFound error, yet the code
reaches `String::replace_range` with an inverted range and panics. -/
theorem patch_out_of_order_cex :
    patchDeps
        "# cppsage:dependencies_end\n# cppsage:dependencies_start".toList
        ["fmt/10.2.1".toList] "app".toList = PatchResult.panicked
    ∧ patchDeps
        "# cppsage:dependencies_end\n# cppsage:dependencies_start".toList
        ["fmt/10.2.1".toList] "app".toList ≠ PatchResult.markerErr :=
  ⟨by decide, by decide⟩

/-- C2 (amended): if the start or the end marker is absent, the patcher
rejects the operation with the MarkerNotFound error, and at the install
level the build-description file is left unchanged (nothing is
written); but when both markers are present and not in
start-before-end order, the operation panics (`String::replace_range`
with an inverted range) instead of reporting MarkerNotFound. -/
theorem patch_marker_missing_rejects :
    (∀ (content : List Char) (deps : List (List Char)) (owner : List Char),
      (strFind startMarker content = none ∨ strFind endMarker content = none) →
      patchDeps content deps owner = PatchResult.markerErr)
    ∧ (∀ (content : List Char) (deps : List (List Char)) (owner : List Char)
        (s e : Nat),
      strFind startMarker content = some s →
      strFind endMarker content = some e →
      e < s + startMarker.length →
      patchDeps content deps owner = PatchResult.panicked)
    ∧ (∀ (env : Env) (fs : FS) (ls : List (Except Unit (List Char)))
        (r : ProcResult) (pn content : List Char),
      env.reqLines = some ls → parseDeps ls ≠ [] →
      env.conanResult = Except.ok r → r.success = true →
      env.cwdName = some pn → fs.cmakeFile = some content →
      patchDeps content (parseDeps ls) pn = PatchResult.markerErr →
      (installDependencies env fs).1
          = Outcome.err ⟨IoErrorKind.other, markerNotFoundMsg⟩
        ∧ (installDependencies env fs).2.1.cmakeFile = fs.cmakeFile) := by
  refine ⟨?_, ?_, ?_⟩
  · intro content deps owner h
    rcases h with h | h
    · simp [patchDeps, h]
    · cases hs : strFind startMarker content <;> simp [patchDeps, hs, h]
  · intro content deps owner s e hs he hlt
    simp only [patchDeps, hs, he]
    rw [if_neg (by omega)]
  · intro env fs ls r pn content hreq hne hconan hs hcwd hcm hpatch
    have hne2 : (parseDeps ls).isEmpty = false := by
      cases h : parseDeps ls
      · exact absurd h hne
      · rfl
    constructor <;>
      simp [installDependencies, hreq, hconan, hne2, hs, hcwd, hcm, hpatch]

/-- C2 witness: the amended theorem applied at concrete inputs — a file
with no markers at all (MarkerNotFound, file untouched at install
level) and the out-of-order file (panic). -/
theorem patch_marker_missing_rejects_witness :
    patchDeps "nothing here".toList ["fmt/10.2.1".toList] "app".toList
      = PatchResult.markerErr
    ∧ patchDeps
        "# cppsage:dependencies_end\n# cppsage:dependencies_startZ".toList
        ["fmt/10.2.1".toList] "app".toList = PatchResult.panicked
    ∧ ((installDependencies
          ⟨some [Except.ok "fmt/10.2.1".toList],
           Except.ok ⟨true, [], []⟩, some "app".toList⟩
          ⟨none, some "nothing here".toList⟩).1
        = Outcome.err ⟨IoErrorKind.other, markerNotFoundMsg⟩
      ∧ (installDependencies
          ⟨some [Except.ok "fmt/10.2.1".toList],
           Except.ok ⟨true, [], []⟩, some "app".toList⟩
          ⟨none, some "nothing here".toList⟩).2.1.cmakeFile
        = some "nothing here".toList) :=
  ⟨patch_marker_missing_rejects.1 _ _ _ (Or.inl (by decide)),
   patch_marker_missing_rejects.2.1 _ _ _ 27 0 (by decide) (by decide)
     (by decide),
   patch_marker_missing_rejects.2.2 _ _ _ ⟨true, [], []⟩ _ _
     rfl (by decide) rfl rfl rfl rfl (by decide)⟩

/-- C3 counterexample: a build file with both markers in order and the
declaration `x# cppsage:dependencies_end/1` (which the requirements
filter does not exclude, since the line does not start with `#`); the
emitted block then contains the end-marker text, the second application
finds the end marker inside the block, and re-applying the patcher does
not reproduce its own output — idempotence fails. -/
theorem patch_not_idempotent_cex :
    patchDeps
        "# cppsage:dependencies_start# cppsage:dependencies_end".toList
        ["x# cppsage:dependencies_end/1".toList] "app".toList
      = PatchResult.ok
          ("# cppsage:dependencies_start\nfind_package(x# cppsage:dependencies_end)\ntarget_link_libraries(app PRIVATE x# cppsage:dependencies_end::x# cppsage:dependencies_end)\n\n# cppsage:dependencies_end".toList)
    ∧ patchDeps
        ("# cppsage:dependencies_start\nfind_package(x# cppsage:dependencies_end)\ntarget_link_libraries(app PRIVATE x# cppsage:dependencies_end::x# cppsage:dependencies_end)\n\n# cppsage:dependencies_end".toList)
        ["x# cppsage:dependencies_end/1".toList] "app".toList
      ≠ PatchResult.ok
          ("# cppsage:dependencies_start\nfind_package(x# cppsage:dependencies_end)\ntarget_link_libraries(app PRIVATE x# cppsage:dependencies_end::x# cppsage:dependencies_end)\n\n# cppsage:dependencies_end".toList) :=
  ⟨by decide, by decide⟩

theorem prefix_getElem?' {pat l : List Char} (k : Nat)
    (h : pat <+: l) (hk : k < pat.length) : l[k]? = pat[k]? := by
  obtain ⟨r, hr⟩ := h
  rw [← hr, List.getElem?_append_left hk]

theorem patchDeps_eq_ok {content : List Char} {deps : List (List Char)}
    {owner : List Char} {s e : Nat}
    (hs : strFind startMarker content = some s)
    (he : strFind endMarker content = some e)
    (hord : s + startMarker.length ≤ e) :
    patchDeps content deps owner
      = PatchResult.ok (content.take (s + startMarker.length)
          ++ ('\n' :: (mkDepsBlock owner deps ++ ['\n'])) ++ content.drop e) := by
  simp only [patchDeps, hs, he]
  rw [if_pos hord]

/-- C3 (amended): on a build file whose two markers are present in
start-before-end order, and for declarations and owner whose emitted
directive block does not contain the end-marker text as a substring,
the patcher is idempotent — re-applying it to its own output reproduces
that output byte for byte — and everything outside the marker-delimited
range (the bytes up to the end of the start marker, and from the end
marker on) is unchanged. -/
theorem patch_idempotent_of_marker_free
    (content : List Char) (deps : List (List Char)) (owner : List Char)
    (s e : Nat) (c1 : List Char)
    (hs : strFind startMarker content = some s)
    (he : strFind endMarker content = some e)
    (hfree : ¬ endMarker <:+: mkDepsBlock owner deps)
    (hp : patchDeps content deps owner = PatchResult.ok c1) :
    patchDeps c1 deps owner = PatchResult.ok c1
    ∧ c1.take (s + startMarker.length) = content.take (s + startMarker.length)
    ∧ c1.drop (c1.length - (content.length - e)) = content.drop e := by
  have hL : startMarker.length = 28 := by decide
  have hE : endMarker.length = 26 := by decide
  have hSM : startMarker <+: content.drop s := strFind_prefix hs
  have hSMmin := strFind_min hs
  have hEM : endMarker <+: content.drop e := strFind_prefix he
  have hEMmin := strFind_min he
  have hsb : s + startMarker.length ≤ content.length :=
    occ_bound (by decide) hSM
  have heb : e + endMarker.length ≤ content.length :=
    occ_bound (by decide) hEM
  simp only [patchDeps, hs, he] at hp
  by_cases hord : s + startMarker.length ≤ e
  case neg =>
    rw [if_neg hord] at hp
    cases hp
  case pos =>
  rw [if_pos hord] at hp
  injection hp with hc1
  subst hc1
  set A := content.take (s + startMarker.length) with hA
  set R : List Char := '\n' :: (mkDepsBlock owner deps ++ ['\n']) with hR
  set B := content.drop e with hB
  simp only [List.append_assoc]
  have hAlen : A.length = s + startMarker.length := by
    rw [hA, List.length_take_of_le hsb]
  have hRlen : R.length = (mkDepsBlock owner deps).length + 2 := by
    rw [hR]; simp
  have hBlen : B.length = content.length - e := by
    rw [hB, List.length_drop]
  have hAdrop : A.drop s = startMarker := by
    rw [hA, List.drop_take]
    have h1 : s + startMarker.length - s = startMarker.length := by omega
    rw [h1]
    exact (List.prefix_iff_eq_take.mp hSM).symm
  have hdecomp : content.drop s
      = startMarker ++ content.drop (s + startMarker.length) := by
    obtain ⟨r, hr⟩ := hSM
    have hr2 := congrArg (List.drop startMarker.length) hr
    rw [List.drop_left, List.drop_drop] at hr2
    rw [← hr2]
    exact hr.symm
  have htake : (A ++ (R ++ B)).take (s + startMarker.length) = A :=
    List.take_left' hAlen
  have hdropT : (A ++ (R ++ B)).drop (s + startMarker.length + R.length) = B := by
    rw [← List.append_assoc]
    apply List.drop_left'
    rw [List.length_append, hAlen]
  have hfind1 : strFind startMarker (A ++ (R ++ B)) = some s := by
    apply strFind_eq_some_iff.mpr
    constructor
    · rw [List.drop_append_eq_append_drop]
      have h1 : s - A.length = 0 := by omega
      rw [h1, List.drop_zero, hAdrop]
      exact List.prefix_append _ _
    · intro j hj hcon
      have hjle : j + startMarker.length ≤ A.length := by omega
      have h2 : startMarker <+: A.drop j := prefix_append_drop_of_le hcon hjle
      have h3 : startMarker <+: content.drop j := by
        rw [hA] at h2
        exact prefix_take_drop h2
      exact hSMmin j hj h3
  have hfind2 : strFind endMarker (A ++ (R ++ B))
      = some (s + startMarker.length + R.length) := by
    apply strFind_eq_some_iff.mpr
    constructor
    · rw [hdropT, hB]
      exact hEM
    · intro j hj hcon
      rcases Nat.lt_or_ge j A.length with hjA | hjA
      · rcases le_or_lt (j + endMarker.length) A.length with hjE | hjE
        · have h2 : endMarker <+: A.drop j := prefix_append_drop_of_le hcon hjE
          have h3 : endMarker <+: content.drop j := by
            rw [hA] at h2
            exact prefix_take_drop h2
          exact hEMmin j (by omega) h3
        · have hhead : (A ++ (R ++ B))[j]? = some '#' := by
            have h00 : endMarker[0]? = some '#' := by decide
            have h0 := prefix_getElem?' 0 hcon (by omega)
            rw [List.getElem?_drop, Nat.add_zero, h00] at h0
            exact h0
          have hcj : content[j]? = some '#' := by
            rw [List.getElem?_append_left hjA, hA,
              List.getElem?_take_of_lt (by omega)] at hhead
            exact hhead
          have hcs : content[j]? = startMarker[j - s]? := by
            have h4 : content[j]? = (content.drop s)[j - s]? := by
              rw [List.getElem?_drop]
              congr 1
              omega
            rw [h4, hdecomp, List.getElem?_append_left (by omega)]
          have hfact : ∀ k, k < 28 → 2 < k → startMarker[k]? ≠ some '#' := by
            decide
          exact hfact (j - s) (by omega) (by omega) (by rw [← hcs, hcj])
      · have hdropj : (A ++ (R ++ B)).drop j = R.drop (j - A.length) ++ B := by
          rw [List.drop_append_eq_append_drop,
            List.drop_eq_nil_of_le (by omega), List.nil_append,
            List.drop_append_eq_append_drop]
          have h5 : j - A.length - R.length = 0 := by omega
          rw [h5, List.drop_zero]
        rw [hdropj] at hcon
        rcases Nat.eq_zero_or_pos (j - A.length) with hk0 | hkpos
        · rw [hk0, List.drop_zero] at hcon
          have h5 := prefix_getElem?' 0 hcon (by omega)
          rw [hR, List.cons_append] at h5
          have h6 : endMarker[0]? = some '#' := by decide
          rw [h6] at h5
          simp at h5
        · obtain ⟨m, hm⟩ : ∃ m, j - A.length = m + 1 :=
            ⟨j - A.length - 1, by omega⟩
          rw [hm] at hcon
          have h7 : R.drop (m + 1) = (mkDepsBlock owner deps ++ ['\n']).drop m := by
            rw [hR, List.drop_succ_cons]
          have hmle : m ≤ (mkDepsBlock owner deps).length := by omega
          have h8 : (mkDepsBlock owner deps ++ ['\n']).drop m
              = (mkDepsBlock owner deps).drop m ++ ['\n'] := by
            rw [List.drop_append_eq_append_drop]
            have h9 : m - (mkDepsBlock owner deps).length = 0 := by omega
            rw [h9, List.drop_zero]
          rw [h7, h8, List.append_assoc, List.singleton_append] at hcon
          rcases le_or_lt endMarker.length
              ((mkDepsBlock owner deps).length - m) with hrem | hrem
          · have h9 : endMarker <+: (mkDepsBlock owner deps).drop m := by
              have h10 := List.prefix_iff_eq_take.mp hcon
              rw [List.take_append_of_le_length
                (by rw [List.length_drop]; omega)] at h10
              exact List.prefix_iff_eq_take.mpr h10
            apply hfree
            obtain ⟨w, hw⟩ := h9
            refine ⟨(mkDepsBlock owner deps).take m, w, ?_⟩
            calc (mkDepsBlock owner deps).take m ++ endMarker ++ w
                = (mkDepsBlock owner deps).take m ++ (endMarker ++ w) := by
                  rw [List.append_assoc]
              _ = (mkDepsBlock owner deps).take m
                    ++ (mkDepsBlock owner deps).drop m := by rw [hw]
              _ = mkDepsBlock owner deps := List.take_append_drop m _
          · have h11 := prefix_getElem?'
              ((mkDepsBlock owner deps).length - m) hcon (by omega)
            rw [List.getElem?_append_right (by rw [List.length_drop])] at h11
            have h12 : (mkDepsBlock owner deps).length - m
                - ((mkDepsBlock owner deps).drop m).length = 0 := by
              rw [List.length_drop]
              omega
            rw [h12] at h11
            simp only [List.getElem?_cons_zero] at h11
            have h13 : ('\n' : Char) ∈ endMarker := List.getElem?_mem h11.symm
            exact absurd h13 (by decide)
  refine ⟨?_, ?_, ?_⟩
  · rw [patchDeps_eq_ok hfind1 hfind2 (by omega), htake, hdropT, ← hR,
      List.append_assoc]
  · exact htake
  · have hlen : (A ++ (R ++ B)).length - (content.length - e)
        = s + startMarker.length + R.length := by
      simp only [List.length_append, hAlen, hBlen]
      omega
    rw [hlen, hdropT]

/-- C3 witness: the amended theorem applied to the output of a first
patch of a fresh scaffold file with the `fmt/10.2.1` declaration —
re-applying the patcher reproduces that output exactly. -/
theorem patch_idempotent_of_marker_free_witness :
    patchDeps
        ("# cppsage:dependencies_start\nfind_package(fmt)\ntarget_link_libraries(app PRIVATE fmt::fmt)\n\n# cppsage:dependencies_end".toList)
        ["fmt/10.2.1".toList] "app".toList
      = PatchResult.ok
          ("# cppsage:dependencies_start\nfind_package(fmt)\ntarget_link_libraries(app PRIVATE fmt::fmt)\n\n# cppsage:dependencies_end".toList) :=
  (patch_idempotent_of_marker_free
    "# cppsage:dependencies_start# cppsage:dependencies_end".toList
    ["fmt/10.2.1".toList] "app".toList 0 28 _
    (by decide) (by decide)
    (not_infix_of_mem_not_mem (c := '#') (by decide) (by decide))
    (by decide)).1

end Cppsage
